import Mathlib

/-!
Shallow embedding of the dinogames fixed-limit Texas Hold'em core
(`src/side-pots.ts`, `src/game-state.ts`, `src/deck.ts`, `src/constants.ts`,
and the join handler of `party/server.ts`) and proofs about the claims of
its specification.

Modelling conventions:
* JavaScript numbers holding chip amounts and bets are modelled as `Int`
  (all arithmetic in the source is exact integer arithmetic in the relevant
  range); seat indices, which the source lets go to `-1`, are `Int` too.
* `JS a % n` on nonnegative operands is `Int.tmod`; `Math.floor (a / n)` is
  `Int.fdiv`.
* Functions that can throw in JS (out-of-range indexing of `pots[0]`,
  `dealCards` on a short deck) return `Option`, `none` marking the throw.
* `Map`s are modelled as total functions with the source's defaulting
  (`winnersByPot.get(i) || []`, `winnings.get(id) || 0`).
-/

/-- A playing card (`types.ts`): rank 2..14 and one of four suits. The card
contents never matter for the claims; suits are numbered. -/
structure Card where
  rank : Int
  suit : Int
deriving DecidableEq, Repr

/-- Game phase (`types.ts` `GamePhase`). -/
inductive GamePhase where
  | lobby
  | preflop
  | flop
  | turn
  | river
  | showdown
deriving DecidableEq, Repr

/-- Player state (`types.ts` `Player`). -/
structure Player where
  id : String
  name : String
  chips : Int
  holeCards : List Card
  currentBet : Int
  totalBetThisHand : Int
  folded : Bool
  allIn : Bool
  isDealer : Bool
  sessionToken : String
deriving DecidableEq, Repr

/-- Pot structure (`types.ts` `Pot`). -/
structure Pot where
  amount : Int
  eligiblePlayerIds : List String
deriving DecidableEq, Repr

/-- Full server-side game state (`types.ts` `GameState`). -/
structure GameState where
  phase : GamePhase
  players : List Player
  communityCards : List Card
  pots : List Pot
  currentBet : Int
  dealerIndex : Int
  activePlayerIndex : Int
  lastRaiserIndex : Int
  raisesThisStreet : Nat
  deck : List Card
  smallBlind : Int
  bigBlind : Int
  streetBetSize : Int
deriving DecidableEq, Repr

/-- Public player projection (`types.ts` `PublicPlayer`). -/
structure PublicPlayer where
  id : String
  name : String
  chips : Int
  currentBet : Int
  folded : Bool
  allIn : Bool
  isDealer : Bool
  hasCards : Bool
deriving DecidableEq, Repr

/-- Public game state sent to clients (`types.ts` `PublicGameState`). -/
structure PublicGameState where
  phase : GamePhase
  players : List PublicPlayer
  communityCards : List Card
  pots : List Pot
  currentBet : Int
  dealerIndex : Int
  activePlayerIndex : Int
  smallBlind : Int
  bigBlind : Int
deriving DecidableEq, Repr

/-- Legal actions view (`types.ts` `LegalActions`). -/
structure LegalActions where
  canFold : Bool
  canCheck : Bool
  canCall : Bool
  callAmount : Int
  canRaise : Bool
  minRaise : Int
  maxRaise : Int
  canAllIn : Bool
  allInAmount : Int
deriving DecidableEq, Repr

/-- Player action kinds (`types.ts` `ActionType`). -/
inductive ActionType where
  | fold
  | check
  | call
  | raise
  | allIn
deriving DecidableEq, Repr

/-- A player action (`types.ts` `PlayerAction`); the optional amount is
ignored by `applyAction` (fixed-limit sizes are server-defined). -/
structure PlayerAction where
  type : ActionType
  amount : Option Int := none
deriving DecidableEq, Repr

/-- Default game settings (`constants.ts` `DEFAULT_SETTINGS`). -/
structure Settings where
  startingChips : Int
  smallBlind : Int
  bigBlind : Int
  maxRaisesPerStreet : Nat
  minPlayers : Nat
  maxPlayers : Nat
  preflopFlopBetSize : Int
  turnRiverBetSize : Int
deriving DecidableEq, Repr

/-- The configured settings: 20 starting chips, blinds 1/2, max 3 raises per
street, 2..6 players, bet sizes 1 (preflop/flop) and 2 (turn/river). -/
def DEFAULT_SETTINGS : Settings :=
  { startingChips := 20
    smallBlind := 1
    bigBlind := 2
    maxRaisesPerStreet := 3
    minPlayers := 2
    maxPlayers := 6
    preflopFlopBetSize := 1
    turnRiverBetSize := 2 }

/-! ## Side-pot calculator (`side-pots.ts`) -/

/-- Models `pots[pots.length - 1].amount += potAmount` (`side-pots.ts`
line 52): add `amt` to the amount of the last pot. -/
def addToLast (amt : Int) : List Pot → List Pot
  | [] => []
  | [pot] => [{ pot with amount := pot.amount + amt }]
  | pot :: pot2 :: rest => pot :: addToLast amt (pot2 :: rest)

/-- The `for (const betLevel of betLevels)` loop of `calculateSidePots`
(`side-pots.ts` lines 31-61), with loop state `pots` and
`previousBetLevel`.  Note that the `continue` on a nonpositive
contribution skips the `previousBetLevel = betLevel` update, exactly as in
the source. -/
def sidePotsLoop (players : List Player) (activePlayers : List (String × Int)) :
    List Int → List Pot → Int → List Pot
  | [], pots, _ => pots
  | betLevel :: rest, pots, previousBetLevel =>
    let contribution := betLevel - previousBetLevel
    if contribution ≤ 0 then
      sidePotsLoop players activePlayers rest pots previousBetLevel
    else
      let eligiblePlayers := (activePlayers.filter (fun p => betLevel ≤ p.2)).map (fun p => p.1)
      let potAmount := (players.map (fun p =>
        min (max 0 (p.totalBetThisHand - previousBetLevel)) contribution)).sum
      let pots1 :=
        if 0 < potAmount ∧ eligiblePlayers = [] ∧ pots ≠ [] then
          addToLast potAmount pots
        else if 0 < potAmount then
          pots ++ [{ amount := potAmount, eligiblePlayerIds := eligiblePlayers }]
        else pots
      sidePotsLoop players activePlayers rest pots1 betLevel

/-- `calculateSidePots` (`side-pots.ts` lines 10-69).  The JS stable
ascending sorts (`.sort((a, b) => a.totalBet - b.totalBet)` and
`.sort((a, b) => a - b)`) are `List.insertionSort`, which is stable; the
insertion-order `Set` dedup is `List.dedup` (order is irrelevant because the
result is sorted immediately after). -/
def calculateSidePots (players : List Player) : List Pot :=
  let activePlayers := List.insertionSort (fun a b => a.2 ≤ b.2)
    ((players.filter (fun p => !p.folded)).map (fun p => (p.id, p.totalBetThisHand)))
  if activePlayers.length = 0 then [{ amount := 0, eligiblePlayerIds := [] }]
  else
    let betLevels := List.insertionSort (fun a b : Int => a ≤ b)
      (((players.map (fun p => p.totalBetThisHand)).filter (fun bet => 0 < bet)).dedup)
    let pots := sidePotsLoop players activePlayers betLevels [] 0
    if pots = [] then
      [{ amount := 0, eligiblePlayerIds := (players.filter (fun p => !p.folded)).map (fun p => p.id) }]
    else pots

/-- The `j`-loop body of `awardPots` (`side-pots.ts` lines 94-98):
`winnings.set(winnerId, (winnings.get(winnerId) || 0) + amount)` with the
winnings `Map` modelled as a total function defaulting to 0. -/
def addWin (winnings : String → Int) (winnerId : String) (amt : Int) : String → Int :=
  fun x => if x = winnerId then winnings x + amt else winnings x

/-- The inner winner loop of `awardPots` (`side-pots.ts` lines 94-98):
winner at loop position `j` receives `share + (j < remainder ? 1 : 0)`. -/
def distributePot (share remainder : Int) : List String → Nat → (String → Int) → (String → Int)
  | [], _, winnings => winnings
  | winnerId :: rest, j, winnings =>
    distributePot share remainder rest (j + 1)
      (addWin winnings winnerId (share + if (j : Int) < remainder then 1 else 0))

/-- The pot loop of `awardPots` (`side-pots.ts` lines 81-99), `i` being the
current pot index.  `winnersByPot.get(i) || []` is the total function
`winnersByPot` applied at `i`.  `Math.floor(pot.amount / winners.length)` is
`Int.fdiv`; JS `%` (remainder with the dividend's sign) is `Int.tmod`. -/
def awardPotsLoop (winnersByPot : Nat → List String) :
    List Pot → Nat → (String → Int) → (String → Int)
  | [], _, winnings => winnings
  | pot :: rest, i, winnings =>
    let winners := winnersByPot i
    if winners = [] then awardPotsLoop winnersByPot rest (i + 1) winnings
    else
      let share := pot.amount.fdiv winners.length
      let remainder := pot.amount.tmod winners.length
      awardPotsLoop winnersByPot rest (i + 1) (distributePot share remainder winners 0 winnings)

/-- `awardPots` (`side-pots.ts` lines 75-102): returns the winnings map
(player id to amount won), modelled as a total function defaulting to 0. -/
def awardPots (pots : List Pot) (winnersByPot : Nat → List String) : String → Int :=
  awardPotsLoop winnersByPot pots 0 (fun _ => 0)

/-! ## Deck operations (`deck.ts`) -/

/-- `dealCards` (`deck.ts` lines 44-49): splices `count` cards off the top of
the deck, returning the dealt cards and the remaining deck; `none` models the
`throw` when the deck is short. -/
def dealCards (deck : List Card) (count : Nat) : Option (List Card × List Card) :=
  if deck.length < count then none else some (deck.take count, deck.drop count)

/-! ## Game state machine (`game-state.ts`) -/

/-- `createInitialState` (`game-state.ts` lines 8-24). -/
def createInitialState : GameState :=
  { phase := GamePhase.lobby
    players := []
    communityCards := []
    pots := [{ amount := 0, eligiblePlayerIds := [] }]
    currentBet := 0
    dealerIndex := 0
    activePlayerIndex := 0
    lastRaiserIndex := -1
    raisesThisStreet := 0
    deck := []
    smallBlind := DEFAULT_SETTINGS.smallBlind
    bigBlind := DEFAULT_SETTINGS.bigBlind
    streetBetSize := DEFAULT_SETTINGS.preflopFlopBetSize }

/-- JS array indexing `players[i]` with a possibly negative index: defined
only for `0 ≤ i < length` (out of range gives `undefined` in JS, whose field
accesses throw). -/
def playerAt (players : List Player) (i : Int) : Option Player :=
  if i < 0 then none else players.get? i.toNat

/-- The `for` loop of `getNextActivePlayerIndex` (`game-state.ts` lines
31-37), iterating over the offsets `1, ..., n`.  The index
`(fromIndex + i) % n` uses JS remainder (`Int.tmod`); an out-of-range index
(impossible for the source's call sites, which pass `fromIndex ≥ -1`) is
skipped. -/
def nextActiveAux (players : List Player) (includeAllIn : Bool) (fromIndex : Int) :
    List Nat → Int
  | [] => -1
  | i :: rest =>
    let idx := (fromIndex + (i : Int)).tmod (players.length : Int)
    match playerAt players idx with
    | some player =>
      if !player.folded && (includeAllIn || !player.allIn) then idx
      else nextActiveAux players includeAllIn fromIndex rest
    | none => nextActiveAux players includeAllIn fromIndex rest

/-- `getNextActivePlayerIndex` (`game-state.ts` lines 29-39): index of the
next player after `fromIndex` who is not folded (and not all-in unless
`includeAllIn`), or `-1` if none. -/
def getNextActivePlayerIndex (state : GameState) (fromIndex : Int)
    (includeAllIn : Bool := false) : Int :=
  nextActiveAux state.players includeAllIn fromIndex
    ((List.range state.players.length).map (· + 1))

/-- `countActivePlayers` (`game-state.ts` lines 44-46). -/
def countActivePlayers (state : GameState) : Nat :=
  (state.players.filter (fun p => !p.folded)).length

/-- `isBettingRoundComplete` (`game-state.ts` lines 59-85). -/
def isBettingRoundComplete (state : GameState) : Bool :=
  let activePlayers := state.players.filter (fun p => !p.folded)
  if activePlayers.length ≤ 1 then true
  else
    let actingPlayers := activePlayers.filter (fun p => !p.allIn)
    if actingPlayers.length = 0 then true
    else if activePlayers.any (fun player => !player.allIn && player.currentBet < state.currentBet)
    then false
    else
      let actionAnchorIndex :=
        if 0 ≤ state.lastRaiserIndex then state.lastRaiserIndex else state.dealerIndex
      let firstToActAfterAnchor := getNextActivePlayerIndex state actionAnchorIndex false
      if firstToActAfterAnchor = -1 then true
      else decide (state.activePlayerIndex = firstToActAfterAnchor)

/-- The per-player reset of `startNewHand` (`game-state.ts` lines 102-110):
`players.map((p, idx) => ...)` modelled with an explicit running index. -/
def resetForHand (newDealerIndex : Nat) : Nat → List Player → List Player
  | _, [] => []
  | idx, p :: ps =>
    { p with holeCards := [], currentBet := 0, totalBetThisHand := 0,
             folded := false, allIn := false, isDealer := idx = newDealerIndex }
      :: resetForHand newDealerIndex (idx + 1) ps

/-- The hole-card dealing loop of `startNewHand` (`game-state.ts` lines
113-115): each player in order receives 2 cards off the shared deck. -/
def dealHoleCards : List Player → List Card → Option (List Player × List Card)
  | [], deck => some ([], deck)
  | p :: ps, deck =>
    match dealCards deck 2 with
    | none => none
    | some (cards, deck1) =>
      match dealHoleCards ps deck1 with
      | none => none
      | some (ps1, deck2) => some ({ p with holeCards := cards } :: ps1, deck2)

/-- Blind posting (`game-state.ts` lines 126-137): the poster pays
`min blind chips`, that amount becomes both `currentBet` and
`totalBetThisHand`, and the poster is marked all-in when their chips reach 0.
Returns the updated seat list and the posted amount. -/
def postBlind (players : List Player) (idx : Nat) (blind : Int) :
    Option (List Player × Int) :=
  match players.get? idx with
  | none => none
  | some p =>
    let amount := min blind p.chips
    let p1 := { p with chips := p.chips - amount, currentBet := amount,
                       totalBetThisHand := amount }
    let p2 := if p1.chips = 0 then { p1 with allIn := true } else p1
    some (players.set idx p2, amount)

/-- The new dealer position of `startNewHand` (`game-state.ts` line 96):
`(state.dealerIndex + 1) % state.players.length`. -/
def newDealerIndexOf (state : GameState) : Nat :=
  ((state.dealerIndex + 1).tmod (state.players.length : Int)).toNat

/-- Small-blind position (`game-state.ts` lines 118-120): heads-up the dealer
posts the small blind. -/
def sbIndexOf (state : GameState) : Nat :=
  let n := state.players.length
  if n = 2 then newDealerIndexOf state else (newDealerIndexOf state + 1) % n

/-- Big-blind position (`game-state.ts` lines 121-123). -/
def bbIndexOf (state : GameState) : Nat :=
  let n := state.players.length
  if n = 2 then (newDealerIndexOf state + 1) % n else (newDealerIndexOf state + 2) % n

/-- `startNewHand` (`game-state.ts` lines 90-158).  The shuffled fresh deck
(`createShuffledDeck()`, which draws from `Math.random`) is passed in as the
explicit parameter `freshDeck`; `none` models a `dealCards` throw (impossible
with a real 52-card deck and at most 6 players). -/
def startNewHand (freshDeck : List Card) (state : GameState) : Option GameState :=
  if state.players.length < DEFAULT_SETTINGS.minPlayers then some state
  else
    let n := state.players.length
    let newDealerIndex := newDealerIndexOf state
    let players0 := resetForHand newDealerIndex 0 state.players
    match dealHoleCards players0 freshDeck with
    | none => none
    | some (players1, deck1) =>
      let sbIndex := sbIndexOf state
      let bbIndex := bbIndexOf state
      match postBlind players1 sbIndex state.smallBlind with
      | none => none
      | some (players2, sbAmount) =>
        match postBlind players2 bbIndex state.bigBlind with
        | none => none
        | some (players3, bbAmount) =>
          let firstToAct := if n = 2 then newDealerIndex else (bbIndex + 1) % n
          some { state with
            phase := GamePhase.preflop
            players := players3
            communityCards := []
            pots := [{ amount := sbAmount + bbAmount,
                       eligiblePlayerIds := players3.map (fun p => p.id) }]
            currentBet := state.bigBlind
            dealerIndex := (newDealerIndex : Int)
            activePlayerIndex := (firstToAct : Int)
            lastRaiserIndex := (bbIndex : Int)
            raisesThisStreet := 0
            deck := deck1
            streetBetSize := DEFAULT_SETTINGS.preflopFlopBetSize }

/-- `advanceStreet` (`game-state.ts` lines 163-219). -/
def advanceStreet (state : GameState) : Option GameState :=
  let nextPhase : Option GamePhase :=
    match state.phase with
    | GamePhase.preflop => some GamePhase.flop
    | GamePhase.flop => some GamePhase.turn
    | GamePhase.turn => some GamePhase.river
    | GamePhase.river => some GamePhase.showdown
    | _ => none
  match nextPhase with
  | none => some state
  | some newPhase =>
    let dealt : Option (List Card × List Card) :=
      match newPhase with
      | GamePhase.flop =>
        match dealCards state.deck 1 with
        | none => none
        | some (_, d1) =>
          match dealCards d1 3 with
          | none => none
          | some (c3, d2) => some (c3, d2)
      | GamePhase.turn | GamePhase.river =>
        match dealCards state.deck 1 with
        | none => none
        | some (_, d1) =>
          match dealCards d1 1 with
          | none => none
          | some (c1, d2) => some (state.communityCards ++ c1, d2)
      | _ => some (state.communityCards, state.deck)
    match dealt with
    | none => none
    | some (communityCards, deck) =>
      let players := state.players.map (fun p => { p with currentBet := 0 })
      let firstToAct :=
        getNextActivePlayerIndex { state with players := players } state.dealerIndex false
      let streetBetSize :=
        match newPhase with
        | GamePhase.turn | GamePhase.river => DEFAULT_SETTINGS.turnRiverBetSize
        | _ => DEFAULT_SETTINGS.preflopFlopBetSize
      some { state with
        phase := newPhase
        players := players
        communityCards := communityCards
        currentBet := 0
        activePlayerIndex := if 0 ≤ firstToAct then firstToAct else 0
        lastRaiserIndex := state.dealerIndex
        raisesThisStreet := 0
        deck := deck
        streetBetSize := streetBetSize }

/-- The all-disabled `LegalActions` record (`game-state.ts` lines 227-237). -/
def noLegalActions : LegalActions :=
  { canFold := false, canCheck := false, canCall := false, callAmount := 0
    canRaise := false, minRaise := 0, maxRaise := 0, canAllIn := false, allInAmount := 0 }

/-- `getLegalActions` (`game-state.ts` lines 224-256). -/
def getLegalActions (state : GameState) : LegalActions :=
  match playerAt state.players state.activePlayerIndex with
  | none => noLegalActions
  | some player =>
    if player.folded || player.allIn then noLegalActions
    else
      let toCall := max 0 (state.currentBet - player.currentBet)
      let canAffordFullRaise := decide (toCall + state.streetBetSize ≤ player.chips)
      let canRaise :=
        decide (state.raisesThisStreet < DEFAULT_SETTINGS.maxRaisesPerStreet)
          && canAffordFullRaise
      { canFold := true
        canCheck := decide (toCall = 0)
        canCall := decide (0 < toCall) && decide (toCall ≤ player.chips)
        callAmount := min toCall player.chips
        canRaise := canRaise
        minRaise := state.streetBetSize
        maxRaise := state.streetBetSize
        canAllIn := decide (0 < player.chips)
        allInAmount := player.chips }

/-- JS `Array.prototype.findIndex`: index of the first match, `-1` if none
(`game-state.ts` line 262). -/
def findIndex (f : Player → Bool) : List Player → Int
  | [] => -1
  | p :: ps =>
    if f p then 0
    else
      let r := findIndex f ps
      if r < 0 then -1 else r + 1

/-- Models `pots[0].amount += amt` (`game-state.ts` lines 289, 308, 330);
`none` models the throw on an empty pot list. -/
def addToFirstPot (pots : List Pot) (amt : Int) : Option (List Pot) :=
  match pots with
  | [] => none
  | pot :: rest => some ({ pot with amount := pot.amount + amt } :: rest)

/-- The shared tail of `applyAction`'s fold/check/call branches
(`game-state.ts` lines 347-355): advance `activePlayerIndex` to the next
player who can act, keeping it in place if none remains. -/
def advanceTurn (state : GameState) (players : List Player) (pots : List Pot)
    (playerIndex : Nat) : GameState :=
  let nextPlayerIndex :=
    getNextActivePlayerIndex { state with players := players } (playerIndex : Int) false
  { state with
    players := players
    pots := pots
    activePlayerIndex := if 0 ≤ nextPlayerIndex then nextPlayerIndex else (playerIndex : Int) }

/-- `applyAction` (`game-state.ts` lines 261-356). -/
def applyAction (state : GameState) (playerId : String) (action : PlayerAction) :
    Option GameState :=
  let playerIndex := findIndex (fun p => p.id = playerId) state.players
  if playerIndex = -1 ∨ playerIndex ≠ state.activePlayerIndex then some state
  else
    match state.players.get? playerIndex.toNat with
    | none => none
    | some player =>
      let i := playerIndex.toNat
      match action.type with
      | ActionType.fold =>
        some (advanceTurn state (state.players.set i { player with folded := true }) state.pots i)
      | ActionType.check =>
        some (advanceTurn state state.players state.pots i)
      | ActionType.call =>
        let callAmount := min (max 0 (state.currentBet - player.currentBet)) player.chips
        let players := state.players.set i
          { player with
            chips := player.chips - callAmount
            currentBet := player.currentBet + callAmount
            totalBetThisHand := player.totalBetThisHand + callAmount
            allIn := player.chips - callAmount = 0 }
        match addToFirstPot state.pots callAmount with
        | none => none
        | some pots => some (advanceTurn state players pots i)
      | ActionType.raise =>
        let callAmount := max 0 (state.currentBet - player.currentBet)
        let raiseAmount := state.streetBetSize
        let totalToAdd := callAmount + raiseAmount
        if player.chips < totalToAdd then some state
        else
          let players := state.players.set i
            { player with
              chips := player.chips - totalToAdd
              currentBet := player.currentBet + totalToAdd
              totalBetThisHand := player.totalBetThisHand + totalToAdd
              allIn := player.chips - totalToAdd = 0 }
          match addToFirstPot state.pots totalToAdd with
          | none => none
          | some pots =>
            some { state with
              players := players
              pots := pots
              currentBet := player.currentBet + totalToAdd
              raisesThisStreet := state.raisesThisStreet + 1
              lastRaiserIndex := playerIndex
              activePlayerIndex :=
                getNextActivePlayerIndex { state with players := players } playerIndex false }
      | ActionType.allIn =>
        let allInAmount := player.chips
        let newBet := player.currentBet + allInAmount
        let players := state.players.set i
          { player with
            chips := 0
            currentBet := newBet
            totalBetThisHand := player.totalBetThisHand + allInAmount
            allIn := true }
        match addToFirstPot state.pots allInAmount with
        | none => none
        | some pots =>
          let newCurrentBet := max state.currentBet newBet
          let isRaise := state.currentBet < newBet
          some { state with
            players := players
            pots := pots
            currentBet := newCurrentBet
            raisesThisStreet :=
              if isRaise then state.raisesThisStreet + 1 else state.raisesThisStreet
            lastRaiserIndex := if isRaise then playerIndex else state.lastRaiserIndex
            activePlayerIndex :=
              getNextActivePlayerIndex { state with players := players } playerIndex false }

/-- `toPublicState` (`game-state.ts` lines 372-393): projection that hides
hole cards (only `hasCards` survives) and the deck. -/
def toPublicState (state : GameState) : PublicGameState :=
  { phase := state.phase
    players := state.players.map (fun p =>
      { id := p.id
        name := p.name
        chips := p.chips
        currentBet := p.currentBet
        folded := p.folded
        allIn := p.allIn
        isDealer := p.isDealer
        hasCards := decide (0 < p.holeCards.length) })
    communityCards := state.communityCards
    pots := state.pots
    currentBet := state.currentBet
    dealerIndex := state.dealerIndex
    activePlayerIndex := state.activePlayerIndex
    smallBlind := state.smallBlind
    bigBlind := state.bigBlind }

/-- Executable model of JS `String.prototype.trim` (`name.trim()` in
`party/server.ts` line 76): drop leading and trailing whitespace. -/
def trimString (s : String) : String :=
  String.mk (((s.data.dropWhile Char.isWhitespace).reverse.dropWhile Char.isWhitespace).reverse)

/-- The new-player path of `handleJoin` (`party/server.ts` lines 99-139):
in the lobby, below the seat cap and without a name collision, a new seat
with the starting stack is appended; otherwise the state is unchanged. -/
def handleJoinNew (state : GameState) (connId name token : String) : GameState :=
  let trimmedName := trimString name
  if state.phase ≠ GamePhase.lobby then state
  else if DEFAULT_SETTINGS.maxPlayers ≤ state.players.length then state
  else if trimmedName ≠ "" ∧ state.players.any (fun p => p.name = trimmedName) then state
  else
    let newPlayer : Player :=
      { id := connId
        name := if trimmedName = "" then "Dino" ++ toString (state.players.length + 1)
                else trimmedName
        chips := DEFAULT_SETTINGS.startingChips
        holeCards := []
        currentBet := 0
        totalBetThisHand := 0
        folded := false
        allIn := false
        isDealer := state.players.length = 0
        sessionToken := token }
    { state with players := state.players ++ [newPlayer] }

/-- States reachable from the freshly created room state through the game's
operations: lobby joins (`party/server.ts` `handleJoin`), `startNewHand`
with an arbitrary shuffled deck, `applyAction` with an arbitrary action, and
`advanceStreet`. -/
inductive Reachable : GameState → Prop where
  | init : Reachable createInitialState
  | join (s : GameState) (connId name token : String) :
      Reachable s → Reachable (handleJoinNew s connId name token)
  | newHand (s s' : GameState) (d : List Card) :
      Reachable s → startNewHand d s = some s' → Reachable s'
  | act (s s' : GameState) (pid : String) (a : PlayerAction) :
      Reachable s → applyAction s pid a = some s' → Reachable s'
  | street (s s' : GameState) :
      Reachable s → advanceStreet s = some s' → Reachable s'

/-! ## Concrete states and inputs used in the example theorems,
counterexamples and witnesses -/

/-- A freshly seated test player with the given id, name and stack. -/
def basePlayer (pid nm : String) (c : Int) : Player :=
  { id := pid, name := nm, chips := c, holeCards := [], currentBet := 0,
    totalBetThisHand := 0, folded := false, allIn := false, isDealer := false,
    sessionToken := "" }

/-- A small concrete deck; enough to deal hole cards to two players. -/
def testDeck : List Card := [⟨2, 0⟩, ⟨3, 0⟩, ⟨4, 0⟩, ⟨5, 0⟩]

/-- Two-player lobby whose next hand has seat 0 as dealer. -/
def headsUpLobby : GameState :=
  { createInitialState with
    players := [basePlayer "p0" "A" 20, basePlayer "p1" "B" 20]
    dealerIndex := 1 }

/-- Player A of the spec's side-pot example: all-in for a total of 50. -/
def examplePlayerA : Player :=
  { basePlayer "A" "A" 0 with totalBetThisHand := 50, allIn := true }

/-- Player B of the spec's side-pot example: total 100, not all-in. -/
def examplePlayerB : Player :=
  { basePlayer "B" "B" 10 with totalBetThisHand := 100 }

/-- Player C of the spec's side-pot example: all-in for a total of 100. -/
def examplePlayerC : Player :=
  { basePlayer "C" "C" 0 with totalBetThisHand := 100, allIn := true }

/-- A folded player who contributed 5 chips this hand. -/
def foldedBettor : Player :=
  { basePlayer "F" "F" 0 with folded := true, totalBetThisHand := 5 }

/-- An unfolded player carrying an (unreachable in play) negative total bet. -/
def negBettor : Player :=
  { basePlayer "N" "N" 0 with totalBetThisHand := -5 }

/-- A folded player who contributed 3 chips this hand. -/
def foldedP3 : Player :=
  { basePlayer "f3" "f3" 0 with folded := true, totalBetThisHand := 3 }

/-- A folded player who contributed 4 chips this hand. -/
def foldedP4 : Player :=
  { basePlayer "f4" "f4" 0 with folded := true, totalBetThisHand := 4 }

/-- Room state after two players joined the fresh room through `handleJoin`. -/
def cexLobby : GameState :=
  handleJoinNew (handleJoinNew createInitialState "p0" "A" "t0") "p1" "B" "t1"

/-- A bare raise request. -/
def raiseAction : PlayerAction := { type := ActionType.raise }

/-- The hand dealt from `cexLobby` (dealer seat 1 acts first heads-up). -/
def cexHand : GameState := (startNewHand testDeck cexLobby).getD createInitialState

/-- One raise by the given player applied to a state. -/
def cexAfterRaise (pid : String) (s : GameState) : GameState :=
  (applyAction s pid raiseAction).getD createInitialState

/-- `cexHand` after four consecutive raises (p1, p0, p1, p0). -/
def cexFinal : GameState :=
  cexAfterRaise "p0" (cexAfterRaise "p1" (cexAfterRaise "p0" (cexAfterRaise "p1" cexHand)))

/-- A state whose street already saw 5 raises. -/
def capState : GameState := { createInitialState with raisesThisStreet := 5 }

/-- A lobby with a single seated player (below the 2-player minimum). -/
def onePlayerLobby : GameState :=
  { createInitialState with players := [basePlayer "p0" "A" 20] }

/-- Two-player lobby whose big-blind seat holds only 1 chip (below the big
blind of 2). -/
def shortBlindLobby : GameState :=
  { createInitialState with
    players := [basePlayer "p0" "A" 20, basePlayer "p1" "B" 1]
    dealerIndex := 1 }

/-- The hand started from `shortBlindLobby`. -/
def shortBlindHand : GameState :=
  (startNewHand testDeck shortBlindLobby).getD createInitialState

/-- Observational equality on players used for the hiding theorem: all
fields agree except the hole-card values, whose number agrees. -/
def obsEqPlayer (p q : Player) : Prop :=
  p.id = q.id ∧ p.name = q.name ∧ p.chips = q.chips ∧ p.currentBet = q.currentBet
    ∧ p.totalBetThisHand = q.totalBetThisHand ∧ p.folded = q.folded
    ∧ p.allIn = q.allIn ∧ p.isDealer = q.isDealer
    ∧ p.sessionToken = q.sessionToken ∧ p.holeCards.length = q.holeCards.length

instance (p q : Player) : Decidable (obsEqPlayer p q) := by
  unfold obsEqPlayer
  infer_instance

/-- A mid-hand state holding concrete hole cards and deck. -/
def secretA : GameState :=
  { createInitialState with
    phase := GamePhase.preflop
    players := [{ basePlayer "p0" "A" 19 with holeCards := [⟨2, 0⟩, ⟨3, 0⟩], currentBet := 1 },
                { basePlayer "p1" "B" 18 with holeCards := [⟨4, 0⟩, ⟨5, 0⟩], currentBet := 2 }]
    deck := [⟨6, 0⟩, ⟨7, 0⟩] }

/-- The same state with different hole-card values and a different deck. -/
def secretB : GameState :=
  { createInitialState with
    phase := GamePhase.preflop
    players := [{ basePlayer "p0" "A" 19 with holeCards := [⟨14, 1⟩, ⟨13, 1⟩], currentBet := 1 },
                { basePlayer "p1" "B" 18 with holeCards := [⟨12, 1⟩, ⟨11, 1⟩], currentBet := 2 }]
    deck := [⟨10, 2⟩] }

/-- The part of a player's total contribution `b` that the side-pot loop
collects across the given bet levels starting from `prev`: one
`min (max 0 (b - level)) (level - prev)` summand per level, telescoping. -/
def playerShare (b : Int) : List Int → Int → Int
  | [], _ => 0
  | l :: rest, prev => min (max 0 (b - prev)) (l - prev) + playerShare b rest l

/-- Number of positions `j, j+1, ..., j+n-1` whose index stays below `rem`:
the total of the one-chip remainders handed out by `distributePot` from loop
position `j` on. -/
def iteSum (rem : Int) : Nat → Nat → Int
  | _, 0 => 0
  | j, n + 1 => (if (j : Int) < rem then 1 else 0) + iteSum rem (j + 1) n

/-! ## Theorems -/

/-- Summing a pointwise sum of two functions over a player list splits into
the two sums. -/
theorem sum_map_add_eq (l : List Player) (f g : Player → Int) :
    (l.map (fun x => f x + g x)).sum = (l.map f).sum + (l.map g).sum := by
  induction l with
  | nil => simp
  | cons a t ih => simp only [List.map_cons, List.sum_cons, ih]; ring

/-- Adding to the last pot adds to the total pot amount. -/
theorem addToLast_sum (amt : Int) (pots : List Pot) (h : pots ≠ []) :
    ((addToLast amt pots).map Pot.amount).sum = (pots.map Pot.amount).sum + amt := by
  induction pots with
  | nil => exact absurd rfl h
  | cons p t ih =>
    cases t with
    | nil => simp [addToLast]
    | cons q r =>
      simp only [addToLast, List.map_cons, List.sum_cons, ih (by simp)]
      ring

/-- Each side-pot loop iteration adds a nonnegative pot amount; over a
strictly increasing level list the total pot amount collected is the sum of
the per-player telescoped shares. -/
theorem sidePotsLoop_sum (players : List Player) (active : List (String × Int))
    (levels : List Int) : ∀ (pots : List Pot) (prev : Int),
    List.Pairwise (fun a b : Int => a < b) (prev :: levels) →
    ((sidePotsLoop players active levels pots prev).map Pot.amount).sum
      = (pots.map Pot.amount).sum
        + (players.map (fun p => playerShare p.totalBetThisHand levels prev)).sum := by
  induction levels with
  | nil =>
    intro pots prev _
    simp [sidePotsLoop, playerShare]
  | cons l rest ih =>
    intro pots prev hpw
    have hlt : prev < l := (List.pairwise_cons.mp hpw).1 l (by simp)
    have hpw2 : List.Pairwise (fun a b : Int => a < b) (l :: rest) :=
      (List.pairwise_cons.mp hpw).2
    have hA : (0:Int) ≤ (players.map (fun p =>
        min (max 0 (p.totalBetThisHand - prev)) (l - prev))).sum := by
      apply List.sum_nonneg
      intro x hx
      obtain ⟨p, _, rfl⟩ := List.mem_map.mp hx
      have h1 : (0:Int) ≤ max 0 (p.totalBetThisHand - prev) := le_max_left _ _
      have h2 : (0:Int) ≤ l - prev := by omega
      simp only [le_min_iff]
      exact ⟨le_refl 0 |>.trans (by omega), by omega⟩
    simp only [sidePotsLoop]
    rw [if_neg (by omega)]
    have hshare : (players.map (fun p =>
        playerShare p.totalBetThisHand (l :: rest) prev)).sum
        = (players.map (fun p =>
            min (max 0 (p.totalBetThisHand - prev)) (l - prev))).sum
          + (players.map (fun p => playerShare p.totalBetThisHand rest l)).sum := by
      rw [← sum_map_add_eq]
      simp only [playerShare]
    split_ifs with h1 h2
    · rw [ih _ l hpw2, addToLast_sum _ _ h1.2.2, hshare]
      ring
    · rw [ih _ l hpw2, List.map_append, List.sum_append, hshare]
      simp only [List.map_cons, List.map_nil, List.sum_cons, List.sum_nil]
      ring
    · have hz : (players.map (fun p =>
          min (max 0 (p.totalBetThisHand - prev)) (l - prev))).sum = 0 := by
        omega
      rw [ih _ l hpw2, hshare, hz]
      ring

/-- Over a strictly increasing level list that contains every value of `b`
exceeding `prev`, the telescoped share of `b` is exactly `max 0 (b - prev)`. -/
theorem playerShare_eval (b : Int) (levels : List Int) : ∀ (prev : Int),
    List.Pairwise (fun a b : Int => a < b) (prev :: levels) →
    (b ≤ prev ∨ b ∈ levels) →
    playerShare b levels prev = max 0 (b - prev) := by
  induction levels with
  | nil =>
    intro prev _ hb
    rcases hb with hb | hb
    · simp only [playerShare, max_def]
      split_ifs <;> omega
    · simp at hb
  | cons l rest ih =>
    intro prev hpw hb
    have hlt : prev < l := (List.pairwise_cons.mp hpw).1 l (by simp)
    have hpw2 : List.Pairwise (fun a b : Int => a < b) (l :: rest) :=
      (List.pairwise_cons.mp hpw).2
    have hrest : ∀ x ∈ rest, l < x := (List.pairwise_cons.mp hpw2).1
    simp only [playerShare]
    rcases hb with hb | hb
    · rw [ih l hpw2 (Or.inl (by omega))]
      simp only [min_def, max_def]
      split_ifs <;> omega
    · rcases List.mem_cons.mp hb with hbeq | hbr
      · rw [ih l hpw2 (Or.inl (le_of_eq hbeq))]
        simp only [min_def, max_def]
        split_ifs <;> omega
      · have hbl : l < b := hrest b hbr
        rw [ih l hpw2 (Or.inr hbr)]
        simp only [min_def, max_def]
        split_ifs <;> omega

/-- C1 amended: side-pot conservation holds whenever at least one player is
not folded and contributions are nonnegative (as they always are in play):
the pot amounts returned by the side-pot calculator sum exactly to the sum
of all players' `totalBetThisHand`, folded players included. -/
theorem calculateSidePots_conservation (players : List Player)
    (hsome : ∃ p ∈ players, p.folded = false)
    (hnonneg : ∀ p ∈ players, 0 ≤ p.totalBetThisHand) :
    ((calculateSidePots players).map Pot.amount).sum
      = (players.map (fun p => p.totalBetThisHand)).sum := by
  obtain ⟨p0, hp0mem, hp0⟩ := hsome
  have hmemf : p0 ∈ players.filter (fun p => !p.folded) :=
    List.mem_filter.mpr ⟨hp0mem, by simp [hp0]⟩
  have hperm := List.perm_insertionSort (fun a b : Int => a ≤ b)
    (((players.map (fun p => p.totalBetThisHand)).filter (fun bet => decide (0 < bet))).dedup)
  have hsorted : List.Sorted (fun a b : Int => a ≤ b)
      (List.insertionSort (fun a b : Int => a ≤ b)
        (((players.map (fun p => p.totalBetThisHand)).filter
          (fun bet => decide (0 < bet))).dedup)) :=
    List.sorted_insertionSort _ _
  have hnodup : (List.insertionSort (fun a b : Int => a ≤ b)
      (((players.map (fun p => p.totalBetThisHand)).filter
        (fun bet => decide (0 < bet))).dedup)).Nodup :=
    hperm.nodup_iff.mpr (List.nodup_dedup _)
  have hlt : List.Pairwise (fun a b : Int => a < b)
      (List.insertionSort (fun a b : Int => a ≤ b)
        (((players.map (fun p => p.totalBetThisHand)).filter
          (fun bet => decide (0 < bet))).dedup)) :=
    hsorted.lt_of_le hnodup
  have hpos : ∀ x ∈ List.insertionSort (fun a b : Int => a ≤ b)
      (((players.map (fun p => p.totalBetThisHand)).filter
        (fun bet => decide (0 < bet))).dedup), (0:Int) < x := by
    intro x hx
    have hx2 := List.mem_dedup.mp (hperm.mem_iff.mp hx)
    have hx3 := List.mem_filter.mp hx2
    simpa using hx3.2
  have hpw0 : List.Pairwise (fun a b : Int => a < b)
      (0 :: List.insertionSort (fun a b : Int => a ≤ b)
        (((players.map (fun p => p.totalBetThisHand)).filter
          (fun bet => decide (0 < bet))).dedup)) :=
    List.pairwise_cons.mpr ⟨hpos, hlt⟩
  have hshare : ∀ p ∈ players,
      playerShare p.totalBetThisHand
        (List.insertionSort (fun a b : Int => a ≤ b)
          (((players.map (fun p => p.totalBetThisHand)).filter
            (fun bet => decide (0 < bet))).dedup)) 0
        = p.totalBetThisHand := by
    intro p hp
    have hcov : p.totalBetThisHand ≤ 0 ∨ p.totalBetThisHand ∈
        List.insertionSort (fun a b : Int => a ≤ b)
          (((players.map (fun p => p.totalBetThisHand)).filter
            (fun bet => decide (0 < bet))).dedup) := by
      by_cases h : 0 < p.totalBetThisHand
      · right
        apply hperm.mem_iff.mpr
        apply List.mem_dedup.mpr
        exact List.mem_filter.mpr ⟨List.mem_map_of_mem _ hp, by simpa using h⟩
      · left
        omega
    rw [playerShare_eval _ _ _ hpw0 hcov]
    have := hnonneg p hp
    simp only [max_def]
    split_ifs <;> omega
  have hmapeq : (players.map (fun p =>
      playerShare p.totalBetThisHand
        (List.insertionSort (fun a b : Int => a ≤ b)
          (((players.map (fun p => p.totalBetThisHand)).filter
            (fun bet => decide (0 < bet))).dedup)) 0)).sum
      = (players.map (fun p => p.totalBetThisHand)).sum := by
    congr 1
    exact List.map_congr_left hshare
  have hloop := sidePotsLoop_sum players
    (List.insertionSort (fun a b => a.2 ≤ b.2)
      ((players.filter (fun p => !p.folded)).map (fun p => (p.id, p.totalBetThisHand))))
    (List.insertionSort (fun a b : Int => a ≤ b)
      (((players.map (fun p => p.totalBetThisHand)).filter
        (fun bet => decide (0 < bet))).dedup))
    [] 0 hpw0
  have hlen : ¬((List.insertionSort (fun a b => a.2 ≤ b.2)
      ((players.filter (fun p => !p.folded)).map
        (fun p => (p.id, p.totalBetThisHand)))).length = 0) := by
    rw [(List.perm_insertionSort _ _).length_eq, List.length_map]
    have : 0 < (players.filter (fun p => !p.folded)).length :=
      List.length_pos.mpr (List.ne_nil_of_mem hmemf)
    omega
  simp only [calculateSidePots]
  rw [if_neg hlen]
  split_ifs with hres
  · rw [hres] at hloop
    simp only [List.map_nil, List.sum_nil] at hloop
    simp only [List.map_cons, List.map_nil, List.sum_cons, List.sum_nil]
    rw [hmapeq] at hloop
    omega
  · rw [hloop, hmapeq]
    simp

/-- Witness for `calculateSidePots_conservation` at a concrete input. -/
theorem calculateSidePots_conservation_witness :
    (∃ p ∈ [examplePlayerA, examplePlayerB, examplePlayerC], p.folded = false)
    ∧ (∀ p ∈ [examplePlayerA, examplePlayerB, examplePlayerC], 0 ≤ p.totalBetThisHand)
    ∧ ((calculateSidePots [examplePlayerA, examplePlayerB, examplePlayerC]).map
        Pot.amount).sum
      = ([examplePlayerA, examplePlayerB, examplePlayerC].map
          (fun p => p.totalBetThisHand)).sum :=
  ⟨by decide, by decide,
    calculateSidePots_conservation [examplePlayerA, examplePlayerB, examplePlayerC]
      (by decide) (by decide)⟩

/-- C5: on the spec's three-player example (A all-in with total 50, B at
total 100 not all-in, C all-in with total 100, none folded) the side-pot
calculator returns exactly two pots: 150 with eligibility A, B, C and 100
with eligibility B, C. -/
theorem sidePots_three_player_example :
    calculateSidePots [examplePlayerA, examplePlayerB, examplePlayerC]
      = [{ amount := 150, eligiblePlayerIds := ["A", "B", "C"] },
         { amount := 100, eligiblePlayerIds := ["B", "C"] }] := by
  decide

/-- C3: heads-up with dealer seat 0, after the blinds (seat 0 small blind 1,
seat 1 big blind 2) seat 0 acts first; once seat 0 calls to 2 it is seat 1's
turn and the betting round is not complete; after seat 1 checks the round is
complete. -/
theorem roundCompletion_anchor_example :
    ((startNewHand testDeck headsUpLobby).map (fun s =>
        (s.dealerIndex, s.activePlayerIndex, s.currentBet,
         s.players.map (fun p => p.currentBet)))
      = some (0, 0, 2, [1, 2]))
    ∧ (((startNewHand testDeck headsUpLobby).bind (fun s =>
          applyAction s "p0" { type := ActionType.call })).map (fun s =>
        (s.activePlayerIndex, s.players.map (fun p => p.currentBet),
         isBettingRoundComplete s))
      = some (1, [2, 2], false))
    ∧ ((((startNewHand testDeck headsUpLobby).bind (fun s =>
          applyAction s "p0" { type := ActionType.call })).bind (fun s =>
          applyAction s "p1" { type := ActionType.check })).map
        isBettingRoundComplete
      = some true) := by
  refine ⟨by decide, by decide, by decide⟩

/-- C1 counterexample: side-pot conservation fails as universally stated.
With a single folded player who contributed 5, the calculator returns the
empty main pot (sum 0 against a contribution sum of 5); with a single
unfolded player holding a negative contribution of -5 it also returns sum 0
against -5. -/
theorem sidePots_conservation_cex :
    (((calculateSidePots [foldedBettor]).map Pot.amount).sum
        ≠ ([foldedBettor].map Player.totalBetThisHand).sum)
    ∧ (((calculateSidePots [negBettor]).map Pot.amount).sum
        ≠ ([negBettor].map Player.totalBetThisHand).sum) := by
  refine ⟨by decide, by decide⟩

/-- C4 counterexample: when every player has folded, the calculator does not
return the previously accumulated pot unchanged; it returns a fresh single
pot of amount 0 with empty eligibility, discarding the 3 + 4 = 7 chips the
folded players had contributed (the pot amounts no longer sum to the
contributions). -/
theorem sidePots_all_folded_cex :
    calculateSidePots [foldedP3, foldedP4]
      = [{ amount := 0, eligiblePlayerIds := [] }]
    ∧ ((calculateSidePots [foldedP3, foldedP4]).map Pot.amount).sum
        ≠ ([foldedP3, foldedP4].map Player.totalBetThisHand).sum := by
  refine ⟨by decide, by decide⟩

/-- C4 amended: if every player in the input list has folded, the side-pot
calculator returns a single pot of amount 0 with empty eligibility. -/
theorem calculateSidePots_all_folded (players : List Player)
    (h : ∀ p ∈ players, p.folded = true) :
    calculateSidePots players = [{ amount := 0, eligiblePlayerIds := [] }] := by
  unfold calculateSidePots
  have hfil : players.filter (fun p => !p.folded) = [] := by
    rw [List.filter_eq_nil_iff]
    intro p hp
    simp [h p hp]
  simp [hfil]

/-- Witness for `calculateSidePots_all_folded` at a concrete input. -/
theorem calculateSidePots_all_folded_witness :
    (∀ p ∈ [foldedBettor], p.folded = true)
    ∧ calculateSidePots [foldedBettor] = [{ amount := 0, eligiblePlayerIds := [] }] :=
  ⟨by decide, calculateSidePots_all_folded [foldedBettor] (by decide)⟩

/-- C2 counterexample: a state with `raisesThisStreet = 4`, above the
configured maximum of 3, is reachable: two players join the fresh room, a
hand is dealt, and `applyAction` accepts four successive raises because it
never checks the raise cap (only `getLegalActions` does). -/
theorem raisesThisStreet_cap_cex :
    ∃ s : GameState, Reachable s
      ∧ DEFAULT_SETTINGS.maxRaisesPerStreet < s.raisesThisStreet := by
  refine ⟨cexFinal, ?_, by decide⟩
  have h0 : Reachable cexLobby :=
    Reachable.join _ "p1" "B" "t1" (Reachable.join _ "p0" "A" "t0" Reachable.init)
  have h1 : Reachable cexHand :=
    Reachable.newHand cexLobby cexHand testDeck h0 (by decide)
  have h2 : Reachable (cexAfterRaise "p1" cexHand) :=
    Reachable.act _ _ "p1" raiseAction h1 (by decide)
  have h3 : Reachable (cexAfterRaise "p0" (cexAfterRaise "p1" cexHand)) :=
    Reachable.act _ _ "p0" raiseAction h2 (by decide)
  have h4 : Reachable (cexAfterRaise "p1" (cexAfterRaise "p0" (cexAfterRaise "p1" cexHand))) :=
    Reachable.act _ _ "p1" raiseAction h3 (by decide)
  exact Reachable.act _ _ "p0" raiseAction h4 (by decide)

/-- C2 amended: the raise cap is enforced by the legal-action computation,
not by `applyAction`: whenever `raisesThisStreet` has reached the configured
maximum, `getLegalActions` disallows raising. -/
theorem getLegalActions_raise_cap (s : GameState)
    (h : DEFAULT_SETTINGS.maxRaisesPerStreet ≤ s.raisesThisStreet) :
    (getLegalActions s).canRaise = false := by
  unfold getLegalActions
  cases hp : playerAt s.players s.activePlayerIndex with
  | none => rfl
  | some player =>
    by_cases hfa : (player.folded || player.allIn) = true
    · simp [hfa, noLegalActions]
    · have hnot : ¬ (s.raisesThisStreet < DEFAULT_SETTINGS.maxRaisesPerStreet) :=
        Nat.not_lt.mpr h
      simp [hfa, hnot]

/-- Witness for `getLegalActions_raise_cap` at a concrete state. -/
theorem getLegalActions_raise_cap_witness :
    DEFAULT_SETTINGS.maxRaisesPerStreet ≤ capState.raisesThisStreet
    ∧ (getLegalActions capState).canRaise = false :=
  ⟨by decide, getLegalActions_raise_cap capState (by decide)⟩

/-- A winner id outside the winner list is never credited by the winner
loop. -/
theorem distributePot_not_mem (share rem : Int) (ws : List String) (x : String)
    (hx : x ∉ ws) : ∀ (j : Nat) (w : String → Int),
    distributePot share rem ws j w x = w x := by
  induction ws with
  | nil => intro j w; rfl
  | cons a t ih =>
    intro j w
    have hxa : x ≠ a := fun h => hx (h ▸ List.mem_cons_self a t)
    rw [distributePot, ih (fun h => hx (List.mem_cons_of_mem a h))]
    simp [addWin, hxa]

/-- With pairwise-distinct winners, the winner at position `k` of the list is
credited `share` plus one chip exactly when its overall loop position
`j + k` is below the remainder. -/
theorem distributePot_get (share rem : Int) : ∀ (ws : List String), ws.Nodup →
    ∀ (k : Fin ws.length) (j : Nat) (w : String → Int),
    distributePot share rem ws j w (ws.get k)
      = w (ws.get k) + share + (if ((j + (k : Nat) : Nat) : Int) < rem then 1 else 0) := by
  intro ws
  induction ws with
  | nil =>
    intro _ k
    exact absurd k.2 (by simp)
  | cons a t ih =>
    intro hnd k j w
    have ha : a ∉ t := (List.nodup_cons.mp hnd).1
    have hndt : t.Nodup := (List.nodup_cons.mp hnd).2
    rcases k with ⟨kv, hk⟩
    cases kv with
    | zero =>
      rw [distributePot]
      have hget : (a :: t).get ⟨0, hk⟩ = a := rfl
      rw [hget, distributePot_not_mem _ _ _ _ ha]
      simp only [addWin, if_pos rfl, if_true]
      ring_nf
    | succ kv =>
      have hkv : kv < t.length := by simpa using hk
      have hget : (a :: t).get ⟨kv + 1, hk⟩ = t.get ⟨kv, hkv⟩ := rfl
      have hne : t.get ⟨kv, hkv⟩ ≠ a := by
        intro h
        exact ha (h ▸ List.get_mem t kv hkv)
      rw [distributePot, hget, ih hndt ⟨kv, hkv⟩ (j + 1) _]
      simp only [addWin, Fin.val_mk]
      rw [if_neg hne]
      have harith : j + 1 + kv = j + (kv + 1) := by omega
      rw [harith]

/-- Crediting an id outside a list leaves the list's mapped values alone. -/
theorem map_addWin_not_mem (w : String → Int) (a : String) (amt : Int)
    (t : List String) (ha : a ∉ t) :
    t.map (addWin w a amt) = t.map w := by
  apply List.map_congr_left
  intro x hx
  have hxa : x ≠ a := fun h => ha (h ▸ hx)
  simp [addWin, hxa]

/-- Sum over lists of strings of a pointwise sum splits. -/
theorem sum_map_add_str (l : List String) (f g : String → Int) :
    (l.map (fun x => f x + g x)).sum = (l.map f).sum + (l.map g).sum := by
  induction l with
  | nil => simp
  | cons a t ih => simp only [List.map_cons, List.sum_cons, ih]; ring

/-- Total credited by the winner loop over pairwise-distinct winners: each
winner receives `share`, and the first remainder positions one extra chip. -/
theorem map_distributePot_sum (share rem : Int) : ∀ (ws : List String), ws.Nodup →
    ∀ (j : Nat) (w : String → Int),
    (ws.map (distributePot share rem ws j w)).sum
      = (ws.map w).sum + (ws.length : Int) * share + iteSum rem j ws.length := by
  intro ws
  induction ws with
  | nil => intro _ j w; simp [iteSum]
  | cons a t ih =>
    intro hnd j w
    have ha : a ∉ t := (List.nodup_cons.mp hnd).1
    have hndt : t.Nodup := (List.nodup_cons.mp hnd).2
    have hstep : ∀ x, distributePot share rem (a :: t) j w x
        = distributePot share rem t (j + 1)
            (addWin w a (share + if (j : Int) < rem then 1 else 0)) x := by
      intro x
      rw [distributePot]
    simp only [List.map_cons, List.sum_cons]
    rw [hstep a, distributePot_not_mem _ _ _ _ ha]
    have hmap : t.map (distributePot share rem (a :: t) j w)
        = t.map (distributePot share rem t (j + 1)
            (addWin w a (share + if (j : Int) < rem then 1 else 0))) := by
      apply List.map_congr_left
      intro x _
      exact hstep x
    rw [hmap, ih hndt (j + 1) _,
        map_addWin_not_mem _ _ _ _ ha]
    simp only [addWin, if_pos rfl, List.length_cons, iteSum]
    push_cast
    ring

/-- Evaluation of `iteSum`: it clamps `rem - j` to `[0, n]`. -/
theorem iteSum_eval (rem : Int) : ∀ (n : Nat) (j : Nat),
    iteSum rem j n = max 0 (min (rem - (j : Int)) (n : Int)) := by
  intro n
  induction n with
  | zero => intro j; simp only [iteSum]; omega
  | succ n ih =>
    intro j
    rw [iteSum, ih (j + 1)]
    by_cases h : (j : Int) < rem
    · rw [if_pos h]
      push_cast
      omega
    · rw [if_neg h]
      push_cast
      omega

/-- With a nonempty winner list, `awardPots` on a single pot is exactly one
run of the winner loop with the floored share and JS remainder. -/
theorem awardPots_single (pot : Pot) (ws : List String) (hws : ws ≠ []) :
    awardPots [pot] (fun i => if i = 0 then ws else [])
      = distributePot (pot.amount.fdiv ws.length) (pot.amount.tmod ws.length)
          ws 0 (fun _ => 0) := by
  unfold awardPots awardPotsLoop
  simp [awardPotsLoop, hws]

/-- C6: splitting a pot among `n` tied winners pays each winner the integer
quotient `amount / n`, hands the remainder out one chip each to the first
winners in list order, and distributes the pot amount exactly; in particular
100 split between two winners pays 50/50 and 101 pays 51/50. -/
theorem awardPots_split_spec :
    (∀ (amount : Int) (elig ws : List String), ws ≠ [] → ws.Nodup → 0 ≤ amount →
      (∀ k : Fin ws.length,
        awardPots [{ amount := amount, eligiblePlayerIds := elig }]
            (fun i => if i = 0 then ws else []) (ws.get k)
          = amount.fdiv ws.length
            + (if ((k : Nat) : Int) < amount.tmod ws.length then 1 else 0))
      ∧ (ws.map (awardPots [{ amount := amount, eligiblePlayerIds := elig }]
            (fun i => if i = 0 then ws else []))).sum = amount)
    ∧ (awardPots [{ amount := 100, eligiblePlayerIds := [] }]
         (fun i => if i = 0 then ["w1", "w2"] else []) "w1" = 50
       ∧ awardPots [{ amount := 100, eligiblePlayerIds := [] }]
           (fun i => if i = 0 then ["w1", "w2"] else []) "w2" = 50)
    ∧ (awardPots [{ amount := 101, eligiblePlayerIds := [] }]
         (fun i => if i = 0 then ["w1", "w2"] else []) "w1" = 51
       ∧ awardPots [{ amount := 101, eligiblePlayerIds := [] }]
           (fun i => if i = 0 then ["w1", "w2"] else []) "w2" = 50) := by
  refine ⟨?_, ⟨by decide, by decide⟩, ⟨by decide, by decide⟩⟩
  intro amount elig ws hne hnd hamt
  have hn : 0 < ws.length := List.length_pos.mpr hne
  constructor
  · intro k
    rw [awardPots_single _ _ hne, distributePot_get _ _ ws hnd k 0 _]
    simp
  · rw [awardPots_single _ _ hne,
        map_distributePot_sum _ _ ws hnd 0 _, iteSum_eval]
    have hz : (ws.map (fun _ => (0:Int))).sum = 0 := by
      simp
    have hnz : (0:Int) < (ws.length : Int) := by exact_mod_cast hn
    have hconv : (ws.length : Int) * (amount.fdiv ws.length) + amount.tmod ws.length
        = amount := by
      rw [Int.fdiv_eq_ediv _ (by positivity), Int.tmod_eq_emod hamt (by positivity)]
      exact Int.ediv_add_emod amount ws.length
    have hr0 : 0 ≤ amount.tmod ws.length := by
      rw [Int.tmod_eq_emod hamt (by positivity)]
      exact Int.emod_nonneg _ (ne_of_gt hnz)
    have hrlt : amount.tmod ws.length < (ws.length : Int) := by
      rw [Int.tmod_eq_emod hamt (by positivity)]
      exact Int.emod_lt_of_pos _ hnz
    have hmax : max 0 (min (amount.tmod ws.length - ((0:Nat) : Int)) (ws.length : Int))
        = amount.tmod ws.length := by omega
    rw [hz, hmax]
    linarith [hconv]

/-- Witness for the general part of `awardPots_split_spec` at a concrete
input. -/
theorem awardPots_split_spec_witness :
    (["x", "y"] : List String) ≠ [] ∧ (["x", "y"] : List String).Nodup
    ∧ (0 : Int) ≤ 7
    ∧ ((["x", "y"] : List String).map
        (awardPots [{ amount := 7, eligiblePlayerIds := [] }]
          (fun i => if i = 0 then ["x", "y"] else []))).sum = 7 :=
  ⟨by decide, by decide, by decide,
    (awardPots_split_spec.1 7 [] ["x", "y"] (by decide) (by decide) (by decide)).2⟩

/-- JS `findIndex` either reports `-1` or points at a matching element. -/
theorem findIndex_neg_or_mem (f : Player → Bool) : ∀ l : List Player,
    findIndex f l = -1
    ∨ (0 ≤ findIndex f l
        ∧ ∃ p, l.get? (findIndex f l).toNat = some p ∧ f p = true) := by
  intro l
  induction l with
  | nil => left; rfl
  | cons a t ih =>
    by_cases hf : f a
    · right
      refine ⟨by simp [findIndex, hf], a, by simp [findIndex, hf], hf⟩
    · rcases ih with h | ⟨h0, p, hget, hp⟩
      · left
        simp [findIndex, hf, h]
      · right
        have hr : ¬ (findIndex f t < 0) := by omega
        have hidx : findIndex f (a :: t) = findIndex f t + 1 := by
          simp [findIndex, hf, hr]
        refine ⟨by omega, p, ?_, hp⟩
        rw [hidx]
        have htn : (findIndex f t + 1).toNat = (findIndex f t).toNat + 1 := by omega
        rw [htn]
        simpa using hget

/-- A `playerAt` hit is a member of the seat list. -/
theorem playerAt_mem (l : List Player) (i : Int) (p : Player)
    (h : playerAt l i = some p) : p ∈ l := by
  unfold playerAt at h
  split at h
  · exact absurd h (by simp)
  · exact List.get?_mem h

/-- C7: `applyAction` is a no-op when the acting id is not the id of the
seat at `activePlayerIndex` (in particular when the id is not seated at
all): the state is returned unchanged. -/
theorem applyAction_wrong_player (s : GameState) (pid : String) (a : PlayerAction)
    (h : Option.all (fun p => p.id != pid) (playerAt s.players s.activePlayerIndex) = true
      ∨ s.players.all (fun p => p.id != pid) = true) :
    applyAction s pid a = some s := by
  have hseat : ∀ p, playerAt s.players s.activePlayerIndex = some p → p.id ≠ pid := by
    intro p hp
    rcases h with h | h
    · rw [hp] at h
      simpa using h
    · have hmem := playerAt_mem _ _ _ hp
      have := (List.all_eq_true.mp h) p hmem
      simpa using this
  simp only [applyAction]
  by_cases hcond : findIndex (fun p => p.id = pid) s.players = -1
      ∨ findIndex (fun p => p.id = pid) s.players ≠ s.activePlayerIndex
  · rw [if_pos hcond]
  · exfalso
    push_neg at hcond
    obtain ⟨hne, heq⟩ := hcond
    rcases findIndex_neg_or_mem (fun p => p.id = pid) s.players with hL | ⟨h0, p, hget, hp⟩
    · exact hne hL
    · have hpa : playerAt s.players s.activePlayerIndex = some p := by
        rw [← heq]
        unfold playerAt
        rw [if_neg (by omega)]
        exact hget
      exact hseat p hpa (by simpa using hp)

/-- Witness for `applyAction_wrong_player`: an id that is not seated (hence
not the active seat's id) leaves the state untouched. -/
theorem applyAction_wrong_player_witness :
    (Option.all (fun p => p.id != "zz")
        (playerAt headsUpLobby.players headsUpLobby.activePlayerIndex) = true
      ∨ headsUpLobby.players.all (fun p => p.id != "zz") = true)
    ∧ applyAction headsUpLobby "zz" { type := ActionType.fold } = some headsUpLobby :=
  ⟨Or.inr (by decide),
    applyAction_wrong_player headsUpLobby "zz" { type := ActionType.fold }
      (Or.inr (by decide))⟩

/-- C8: the public projection depends on neither hole-card values nor the
deck: states agreeing on everything else (hole-card counts included)
project to identical public states. -/
theorem toPublicState_hides_private (s1 s2 : GameState)
    (hphase : s1.phase = s2.phase)
    (hpl : List.Forall₂ obsEqPlayer s1.players s2.players)
    (hcc : s1.communityCards = s2.communityCards)
    (hpots : s1.pots = s2.pots)
    (hcb : s1.currentBet = s2.currentBet)
    (hdi : s1.dealerIndex = s2.dealerIndex)
    (hapi : s1.activePlayerIndex = s2.activePlayerIndex)
    (hsb : s1.smallBlind = s2.smallBlind)
    (hbb : s1.bigBlind = s2.bigBlind) :
    toPublicState s1 = toPublicState s2 := by
  unfold toPublicState
  have hmap : ∀ (l1 l2 : List Player), List.Forall₂ obsEqPlayer l1 l2 →
      l1.map (fun p =>
        ({ id := p.id, name := p.name, chips := p.chips, currentBet := p.currentBet,
           folded := p.folded, allIn := p.allIn, isDealer := p.isDealer,
           hasCards := decide (0 < p.holeCards.length) } : PublicPlayer))
      = l2.map (fun p =>
        ({ id := p.id, name := p.name, chips := p.chips, currentBet := p.currentBet,
           folded := p.folded, allIn := p.allIn, isDealer := p.isDealer,
           hasCards := decide (0 < p.holeCards.length) } : PublicPlayer)) := by
    intro l1 l2 hf
    induction hf with
    | nil => rfl
    | cons hpq _ ih =>
      obtain ⟨h1, h2, h3, h4, _, h6, h7, h8, _, h10⟩ := hpq
      simp only [List.map_cons, ih, List.cons.injEq, and_true]
      rw [h1, h2, h3, h4, h6, h7, h8, h10]
  rw [hphase, hcc, hpots, hcb, hdi, hapi, hsb, hbb, hmap s1.players s2.players hpl]

/-- Witness for `toPublicState_hides_private`: two concrete states that
differ in hole-card values and in the deck have the same public view. -/
theorem toPublicState_hides_private_witness :
    List.Forall₂ obsEqPlayer secretA.players secretB.players
    ∧ secretA.deck ≠ secretB.deck
    ∧ toPublicState secretA = toPublicState secretB :=
  ⟨List.Forall₂.cons (by decide) (List.Forall₂.cons (by decide) List.Forall₂.nil),
    by decide,
    toPublicState_hides_private secretA secretB rfl
      (List.Forall₂.cons (by decide) (List.Forall₂.cons (by decide) List.Forall₂.nil))
      rfl rfl rfl rfl rfl rfl rfl⟩

/-- C10: with fewer than the minimum 2 seated players, `startNewHand`
returns the input state unchanged. -/
theorem startNewHand_too_few (s : GameState) (d : List Card)
    (h : s.players.length < DEFAULT_SETTINGS.minPlayers) :
    startNewHand d s = some s := by
  unfold startNewHand
  rw [if_pos h]

/-- Witness for `startNewHand_too_few` on a one-player lobby. -/
theorem startNewHand_too_few_witness :
    onePlayerLobby.players.length < DEFAULT_SETTINGS.minPlayers
    ∧ startNewHand testDeck onePlayerLobby = some onePlayerLobby :=
  ⟨by decide, startNewHand_too_few onePlayerLobby testDeck (by decide)⟩

/-- Reading back the seat just written. -/
theorem get?_set_self_pl : ∀ (l : List Player) (i : Nat) (p : Player), i < l.length →
    (l.set i p).get? i = some p := by
  intro l
  induction l with
  | nil => intro i p hi; simp at hi
  | cons a t ih =>
    intro i p hi
    cases i with
    | zero => rfl
    | succ n => exact ih n p (by simpa using hi)

/-- Writing one seat leaves the other seats unchanged. -/
theorem get?_set_other_pl : ∀ (l : List Player) (i j : Nat) (p : Player), j ≠ i →
    (l.set i p).get? j = l.get? j := by
  intro l
  induction l with
  | nil => intro i j p _; rfl
  | cons a t ih =>
    intro i j p hne
    cases i with
    | zero =>
      cases j with
      | zero => exact absurd rfl hne
      | succ m => rfl
    | succ n =>
      cases j with
      | zero => rfl
      | succ m => exact ih n m p (by omega)

/-- The per-hand reset keeps every seat's chip count. -/
theorem resetForHand_chips (nd : Nat) : ∀ (l : List Player) (base i : Nat),
    ((resetForHand nd base l).get? i).map Player.chips
      = (l.get? i).map Player.chips := by
  intro l
  induction l with
  | nil => intro base i; rfl
  | cons a t ih =>
    intro base i
    cases i with
    | zero => rfl
    | succ n => exact ih (base + 1) n

/-- Dealing hole cards keeps every seat's chip count. -/
theorem dealHoleCards_chips : ∀ (l : List Player) (d : List Card) (l1 : List Player)
    (d1 : List Card), dealHoleCards l d = some (l1, d1) →
    ∀ i, (l1.get? i).map Player.chips = (l.get? i).map Player.chips := by
  intro l
  induction l with
  | nil =>
    intro d l1 d1 h i
    simp only [dealHoleCards, Option.some.injEq, Prod.mk.injEq] at h
    rw [← h.1]
  | cons a t ih =>
    intro d l1 d1 h i
    rw [dealHoleCards] at h
    cases hdc : dealCards d 2 with
    | none => rw [hdc] at h; simp at h
    | some cd =>
      obtain ⟨cards, deck1⟩ := cd
      rw [hdc] at h
      simp only [] at h
      cases hrec : dealHoleCards t deck1 with
      | none => rw [hrec] at h; simp at h
      | some pd =>
        obtain ⟨ps1, deck2⟩ := pd
        rw [hrec] at h
        simp only [Option.some.injEq, Prod.mk.injEq] at h
        rw [← h.1]
        cases i with
        | zero => rfl
        | succ n => exact ih deck1 ps1 deck2 hrec n

/-- The small- and big-blind positions are distinct whenever a hand can
start. -/
theorem sbIndex_ne_bbIndex (s : GameState) (h2 : 2 ≤ s.players.length) :
    sbIndexOf s ≠ bbIndexOf s := by
  unfold sbIndexOf bbIndexOf
  by_cases hn2 : s.players.length = 2
  · rw [if_pos hn2, if_pos hn2]
    generalize newDealerIndexOf s = x
    rw [hn2]
    omega
  · rw [if_neg hn2, if_neg hn2]
    intro heq
    have h3 : 3 ≤ s.players.length := by omega
    have hdvd : s.players.length ∣ (newDealerIndexOf s + 2) - (newDealerIndexOf s + 1) :=
      (Nat.modEq_iff_dvd' (by omega)).mp heq
    have hone : s.players.length ∣ 1 := by simpa using hdvd
    have := Nat.le_of_dvd (by omega) hone
    omega

/-- C9: if a blind poster is short (chips below the blind), `startNewHand`
deducts only the remaining chips, posts them as both `currentBet` and
`totalBetThisHand`, and marks the seat all-in; the table `currentBet` is
nonetheless set to the full configured big blind. -/
theorem startNewHand_short_blind (s : GameState) (d : List Card) (s' : GameState)
    (h : startNewHand d s = some s') (hn : 2 ≤ s.players.length) :
    s'.currentBet = s.bigBlind
    ∧ (∀ p, s.players.get? (bbIndexOf s) = some p → p.chips < s.bigBlind →
        ∃ q, s'.players.get? (bbIndexOf s) = some q ∧ q.chips = 0
          ∧ q.currentBet = p.chips ∧ q.totalBetThisHand = p.chips ∧ q.allIn = true)
    ∧ (∀ p, s.players.get? (sbIndexOf s) = some p → p.chips < s.smallBlind →
        ∃ q, s'.players.get? (sbIndexOf s) = some q ∧ q.chips = 0
          ∧ q.currentBet = p.chips ∧ q.totalBetThisHand = p.chips ∧ q.allIn = true) := by
  have hnesb : sbIndexOf s ≠ bbIndexOf s := sbIndex_ne_bbIndex s hn
  have hnotlt : ¬ (s.players.length < DEFAULT_SETTINGS.minPlayers) := by
    have hmp : DEFAULT_SETTINGS.minPlayers = 2 := rfl
    omega
  simp only [startNewHand] at h
  rw [if_neg hnotlt] at h
  cases hdh : dealHoleCards (resetForHand (newDealerIndexOf s) 0 s.players) d with
  | none => rw [hdh] at h; simp at h
  | some pd =>
  obtain ⟨players1, deck1⟩ := pd
  rw [hdh] at h
  simp only [] at h
  cases hpb1 : postBlind players1 (sbIndexOf s) s.smallBlind with
  | none => rw [hpb1] at h; simp at h
  | some q2 =>
  obtain ⟨players2, sbAmt⟩ := q2
  rw [hpb1] at h
  simp only [] at h
  cases hpb2 : postBlind players2 (bbIndexOf s) s.bigBlind with
  | none => rw [hpb2] at h; simp at h
  | some q3 =>
  obtain ⟨players3, bbAmt⟩ := q3
  rw [hpb2] at h
  simp only [Option.some.injEq] at h
  -- decompose the two blind postings
  simp only [postBlind] at hpb1 hpb2
  cases hg1 : players1.get? (sbIndexOf s) with
  | none => rw [hg1] at hpb1; simp at hpb1
  | some pa =>
  rw [hg1] at hpb1
  simp only [Option.some.injEq, Prod.mk.injEq] at hpb1
  cases hg2 : players2.get? (bbIndexOf s) with
  | none => rw [hg2] at hpb2; simp at hpb2
  | some pb =>
  rw [hg2] at hpb2
  simp only [Option.some.injEq, Prod.mk.injEq] at hpb2
  -- chip counts at the blind seats are the original ones
  have hchips1 : ∀ i, (players1.get? i).map Player.chips
      = (s.players.get? i).map Player.chips := by
    intro i
    rw [dealHoleCards_chips _ _ _ _ hdh i, resetForHand_chips]
  have hs'players : s'.players = players3 := by rw [← h]
  have hs'cb : s'.currentBet = s.bigBlind := by rw [← h]
  refine ⟨hs'cb, ?_, ?_⟩
  · -- big blind seat
    intro p hp hc
    have hpbchips : pb.chips = p.chips := by
      have h21 : players2.get? (bbIndexOf s) = players1.get? (bbIndexOf s) := by
        rw [← hpb1.1]
        exact get?_set_other_pl players1 (sbIndexOf s) (bbIndexOf s) _ (Ne.symm hnesb)
      have := hchips1 (bbIndexOf s)
      rw [← h21, hg2, hp] at this
      simpa using this
    have hamt : min s.bigBlind pb.chips = pb.chips :=
      min_eq_right (le_of_lt (by omega))
    have hbblt : bbIndexOf s < players2.length := by
      obtain ⟨hlt, _⟩ := List.get?_eq_some.mp hg2
      exact hlt
    have hq : players3.get? (bbIndexOf s) = some
        { pb with chips := 0, currentBet := pb.chips, totalBetThisHand := pb.chips,
                  allIn := true } := by
      rw [← hpb2.1]
      rw [hamt]
      rw [if_pos (by simp)]
      have := get?_set_self_pl players2 (bbIndexOf s)
        { pb with chips := pb.chips - pb.chips, currentBet := pb.chips,
                  totalBetThisHand := pb.chips, allIn := true } hbblt
      simpa using this
    refine ⟨_, by rw [hs'players]; exact hq, by simp, by simp [hpbchips],
      by simp [hpbchips], by simp⟩
  · -- small blind seat
    intro p hp hc
    have hpachips : pa.chips = p.chips := by
      have := hchips1 (sbIndexOf s)
      rw [hg1, hp] at this
      simpa using this
    have hamt : min s.smallBlind pa.chips = pa.chips :=
      min_eq_right (le_of_lt (by omega))
    have hsblt : sbIndexOf s < players1.length := by
      obtain ⟨hlt, _⟩ := List.get?_eq_some.mp hg1
      exact hlt
    have hq1 : players2.get? (sbIndexOf s) = some
        { pa with chips := 0, currentBet := pa.chips, totalBetThisHand := pa.chips,
                  allIn := true } := by
      rw [← hpb1.1]
      rw [hamt]
      rw [if_pos (by simp)]
      have := get?_set_self_pl players1 (sbIndexOf s)
        { pa with chips := pa.chips - pa.chips, currentBet := pa.chips,
                  totalBetThisHand := pa.chips, allIn := true } hsblt
      simpa using this
    have hq : players3.get? (sbIndexOf s) = some
        { pa with chips := 0, currentBet := pa.chips, totalBetThisHand := pa.chips,
                  allIn := true } := by
      rw [← hpb2.1]
      rw [get?_set_other_pl players2 (bbIndexOf s) (sbIndexOf s) _ hnesb]
      exact hq1
    refine ⟨_, by rw [hs'players]; exact hq, by simp, by simp [hpachips],
      by simp [hpachips], by simp⟩

/-- Witness for `startNewHand_short_blind`: a concrete heads-up hand whose
big-blind seat holds a single chip. -/
theorem startNewHand_short_blind_witness :
    startNewHand testDeck shortBlindLobby = some shortBlindHand
    ∧ 2 ≤ shortBlindLobby.players.length
    ∧ shortBlindLobby.players.get? (bbIndexOf shortBlindLobby)
        = some (basePlayer "p1" "B" 1)
    ∧ (basePlayer "p1" "B" 1).chips < shortBlindLobby.bigBlind
    ∧ (∃ q, shortBlindHand.players.get? (bbIndexOf shortBlindLobby) = some q
        ∧ q.chips = 0 ∧ q.currentBet = (basePlayer "p1" "B" 1).chips
        ∧ q.totalBetThisHand = (basePlayer "p1" "B" 1).chips ∧ q.allIn = true) :=
  ⟨by decide, by decide, by decide, by decide,
    (startNewHand_short_blind shortBlindLobby testDeck shortBlindHand (by decide)
        (by decide)).2.1 (basePlayer "p1" "B" 1) (by decide) (by decide)⟩
